import Mathlib

/-!
Shallow embedding of the StockPulse data-access module (src/utils.py).

The module talks to a single external market-data provider (yfinance):
for a ticker string the provider either raises, or yields an info record
(a dict with optional keys, of which the code reads only the strings
under the keys symbol and longName) and, on request, a price history
(here: the list of session closes, oldest first, as exact rationals).
A raised exception is modelled as Except.error (); a falsy or empty info
dict coincides, for every guard the code performs, with a record in
which both optional fields are absent.

Each try/except around a provider call is embedded as a top-level
continuation function pattern-matching on the call result, so that the
whole development stays executable and rewriting-friendly.

Python string methods used by the code (upper, lower, replace, split,
capitalize, the in operator) are modelled by structurally recursive
functions on the underlying character lists, ASCII-faithful.
-/

namespace StockPulse

/-- Directional colour tag attached to a quote (the Change_Color field:
green when the percent change is strictly positive, otherwise red). -/
inductive Color where
  | green
  | red
  deriving DecidableEq

/-- Provider info record as read by the code: the optional symbol and
longName entries. A falsy or field-free dict is both fields none. -/
structure Info where
  symbol : Option String
  longName : Option String
  deriving DecidableEq

/-- The market-data provider (yfinance). history takes the ticker, the
period and the interval and yields the session closes, oldest first;
info yields the info record. Either call may raise. -/
structure Provider where
  history : String → String → String → Except Unit (List ℚ)
  info : String → Except Unit Info

/-! ## Index Snapshot: get_world_indices -/

/-- The fixed, ordered table of world indices (the indices dict in
get_world_indices; Python dicts iterate in insertion order). -/
def indices : List (String × String) :=
  [("^GSPC", "S&P 500"), ("^DJI", "Dow Jones"), ("^IXIC", "NASDAQ"),
   ("^FTSE", "FTSE 100"), ("^N225", "Nikkei 225"), ("^HSI", "Hang Seng"),
   ("^GDAXI", "DAX"), ("^FCHI", "CAC 40")]

/-- One row of the world-indices table. The Python code stores the
numbers pre-formatted as strings; we keep the raw rational values the
format strings are produced from. -/
structure IndexQuote where
  index : String
  price : ℚ
  change : ℚ
  changePct : ℚ
  color : Color
  deriving DecidableEq

/-- Row computation of get_world_indices from a fetched history: requires
at least two sessions, takes the last close (iloc[-1]) and the previous
close (iloc[-2]), and derives change and percent change. A zero previous
close raises ZeroDivisionError in Python, which the enclosing except
turns into a dropped row, hence the explicit none. -/
def entryFromHist (name : String) (hist : List ℚ) : Option IndexQuote :=
  if 2 ≤ hist.length then
    let current := hist.getLastD 0
    let prev_close := hist.dropLast.getLastD 0
    if prev_close = 0 then none
    else
      let change := current - prev_close
      let change_pct := change / prev_close * 100
      some ⟨name, current, change, change_pct,
            if 0 < change_pct then Color.green else Color.red⟩
  else none

/-- Continuation of the try in get_world_indices: a raising history
fetch is caught and the index contributes nothing. -/
def indexOfResult (name : String) : Except Unit (List ℚ) → Option IndexQuote
  | Except.error _ => none
  | Except.ok hist => entryFromHist name hist

/-- Per-index body of the loop in get_world_indices: fetch two days of
history and build the row. -/
def indexEntry (p : Provider) (symbol name : String) : Option IndexQuote :=
  indexOfResult name (p.history symbol "2d" "1d")

/-- get_world_indices: one row per configured index, in the configured
order, skipping indices whose fetch fails or has fewer than two
sessions. -/
def get_world_indices (p : Provider) : List IndexQuote :=
  indices.filterMap (fun e => indexEntry p e.1 e.2)

/-! ## Movers Ranker: get_top_movers -/

/-- The fixed watchlist of major stocks checked by get_top_movers. -/
def stocks : List String :=
  ["AAPL", "MSFT", "GOOGL", "AMZN", "NVDA", "META", "TSLA", "JPM",
   "V", "WMT", "PG", "MA", "UNH", "HD", "BAC", "XOM", "PFE", "DIS",
   "NFLX", "COIN", "AMD", "INTC", "CSCO", "VZ", "T", "PEP", "KO",
   "ADBE", "CRM", "ORCL"]

/-- One row of the movers tables, raw-valued as in IndexQuote. -/
structure MoverData where
  symbol : String
  name : String
  price : ℚ
  change : ℚ
  changePct : ℚ
  color : Color
  deriving DecidableEq

/-- Row computation of get_top_movers once history and a long name are
at hand, paired with the percent change used as the sort key. -/
def moverFromHist (symbol name : String) (hist : List ℚ) : Option (ℚ × MoverData) :=
  if 2 ≤ hist.length then
    let current := hist.getLastD 0
    let prev_close := hist.dropLast.getLastD 0
    if prev_close = 0 then none
    else
      let change := current - prev_close
      let change_pct := change / prev_close * 100
      some (change_pct,
            ⟨symbol, name, current, change, change_pct,
             if 0 < change_pct then Color.green else Color.red⟩)
  else none

/-- Guard of get_top_movers on the info record: the row needs a
longName entry. -/
def moverOfName (symbol : String) (hist : List ℚ) :
    Option String → Option (ℚ × MoverData)
  | some name => moverFromHist symbol name hist
  | none => none

/-- Continuation of the try in get_top_movers: a raise from either
provider call is caught and the symbol contributes nothing. -/
def moverOfResults (symbol : String) :
    Except Unit (List ℚ) → Except Unit Info → Option (ℚ × MoverData)
  | Except.ok hist, Except.ok info => moverOfName symbol hist info.longName
  | _, _ => none

/-- Per-symbol body of the loop in get_top_movers: fetch two days of
history plus the info record and build the keyed row. -/
def moverEntry (p : Provider) (symbol : String) : Option (ℚ × MoverData) :=
  moverOfResults symbol (p.history symbol "2d" "1d") (p.info symbol)

/-- Append the row to gainers when its percent change is strictly
positive, else to losers. -/
def classifyEntry (acc : List (ℚ × MoverData) × List (ℚ × MoverData)) :
    Option (ℚ × MoverData) → List (ℚ × MoverData) × List (ℚ × MoverData)
  | none => acc
  | some e => if 0 < e.1 then (acc.1 ++ [e], acc.2) else (acc.1, acc.2 ++ [e])

/-- Loop step of get_top_movers. -/
def classify (p : Provider) (acc : List (ℚ × MoverData) × List (ℚ × MoverData))
    (symbol : String) : List (ℚ × MoverData) × List (ℚ × MoverData) :=
  classifyEntry acc (moverEntry p symbol)

/-- The (gainers, losers) accumulation over the whole watchlist. -/
def moverPartition (p : Provider) : List (ℚ × MoverData) × List (ℚ × MoverData) :=
  stocks.foldl (classify p) ([], [])

/-- Sort order of the gainers table: descending percent change
(sorted with reverse=True on the key). -/
def gainerOrder (a b : ℚ × MoverData) : Prop := b.1 ≤ a.1

/-- Sort order of the losers table: ascending percent change. -/
def loserOrder (a b : ℚ × MoverData) : Prop := a.1 ≤ b.1

instance : DecidableRel gainerOrder :=
  fun a b => inferInstanceAs (Decidable (b.1 ≤ a.1))

instance : DecidableRel loserOrder :=
  fun a b => inferInstanceAs (Decidable (a.1 ≤ b.1))

instance : IsTotal (ℚ × MoverData) gainerOrder :=
  ⟨fun a b => le_total b.1 a.1⟩

instance : IsTotal (ℚ × MoverData) loserOrder :=
  ⟨fun a b => le_total a.1 b.1⟩

instance : IsTrans (ℚ × MoverData) gainerOrder :=
  ⟨fun _ _ _ h1 h2 => le_trans h2 h1⟩

instance : IsTrans (ℚ × MoverData) loserOrder :=
  ⟨fun _ _ _ h1 h2 => le_trans h1 h2⟩

/-- get_top_movers: partition the watchlist rows by sign of the percent
change, sort each side by the key (a stable sort, as Python sorted is),
keep the first ten of each, and drop the keys. -/
def get_top_movers (p : Provider) : List MoverData × List MoverData :=
  let pr := moverPartition p
  let gainers := List.insertionSort gainerOrder pr.1
  let losers := List.insertionSort loserOrder pr.2
  ((gainers.take 10).map Prod.snd, (losers.take 10).map Prod.snd)

/-! ## Python string primitives used by search_stock, on char lists -/

/-- Test that the first list is an initial segment of the second. -/
def leadsList : List Char → List Char → Bool
  | [], _ => true
  | _ :: _, [] => false
  | a :: as, b :: bs => a = b && leadsList as bs

/-- Python substring membership (the in operator): needle occurs
contiguously in the haystack. -/
def hasSub (needle : List Char) : List Char → Bool
  | [] => needle.isEmpty
  | c :: cs => leadsList needle (c :: cs) || hasSub needle cs

/-- Python str.replace with a one-character needle (both call sites in
search_stock replace the single character space). -/
def replaceChar (needle : Char) (repl : List Char) : List Char → List Char
  | [] => []
  | c :: cs => (if c = needle then repl else [c]) ++ replaceChar needle repl cs

/-- Python str.split with no argument: split on whitespace runs,
discarding empty pieces; acc carries the word being read. -/
def splitWsAux : List Char → List Char → List (List Char)
  | [], acc => if acc.isEmpty then [] else [acc]
  | c :: cs, acc =>
    if c.isWhitespace then
      (if acc.isEmpty then splitWsAux cs [] else acc :: splitWsAux cs [])
    else splitWsAux cs (acc ++ [c])

/-- Python str.capitalize on a word: first character upper-cased, the
rest lower-cased. -/
def capitalizeChars : List Char → List Char
  | [] => []
  | c :: cs => c.toUpper :: cs.map Char.toLower

/-- Python str.upper, ASCII-faithful. -/
def pyUpper (s : String) : String := ⟨s.data.map Char.toUpper⟩

/-- Python str.lower, ASCII-faithful. -/
def pyLower (s : String) : String := ⟨s.data.map Char.toLower⟩

/-- Python str.replace for a one-character needle, at string level. -/
def pyReplace (needle : Char) (repl : String) (s : String) : String :=
  ⟨replaceChar needle repl.data s.data⟩

/-- Python title-casing as written in search_stock: join with single
spaces the capitalized words of the whitespace-split query. -/
def pyTitle (s : String) : String :=
  ⟨(List.intersperse [' '] ((splitWsAux s.data []).map capitalizeChars)).flatten⟩

/-- Python substring membership at string level: needle in hay. -/
def strContains (hay needle : String) : Bool := hasSub needle.data hay.data

/-! ## Symbol Resolver: search_stock -/

/-- The fixed list of textual variants tried by search_stock: original,
upper-cased, space to hyphen, space removed, lower-cased, title-cased. -/
def variations (q : String) : List String :=
  [q, pyUpper q, pyReplace ' ' "-" q, pyReplace ' ' "" q, pyLower q, pyTitle q]

/-- The fixed list of exchange suffixes tried for each variant. -/
def suffixes : List String := ["", ".DE", ".L", ".PA", ".MI", ".MC"]

/-- Well-formedness guard of tiers 1 and 2: a candidate results exactly
when the record carries both a symbol and a longName. -/
def probeOfFields : Option String → Option String → Option (String × String)
  | some sym, some name => some (sym, name)
  | _, _ => none

/-- Continuation of one probe: a raising call is caught and yields no
candidate. -/
def probeOfResult : Except Unit Info → Option (String × String)
  | Except.error _ => none
  | Except.ok info => probeOfFields info.symbol info.longName

/-- One full-record probe of the provider for the string s. -/
def probeFull (p : Provider) (s : String) : Option (String × String) :=
  probeOfResult (p.info s)

/-- State update of the variation sweep: on a full record, append the
candidate unless its symbol was already seen. The state is (seen
symbols, accumulated candidates). -/
def sweepInsert (st : List String × List (String × String)) :
    Option (String × String) → List String × List (String × String)
  | none => st
  | some c => if c.1 ∈ st.1 then st else (st.1 ++ [c.1], st.2 ++ [c])

/-- Inner-loop step of the variation sweep: probe one string. -/
def sweepStep (p : Provider) (st : List String × List (String × String))
    (s : String) : List String × List (String × String) :=
  sweepInsert st (probeFull p s)

/-- The whole tier-2 sweep: for each variant, probe the variant
concatenated with each suffix, threading the seen-set and results. -/
def sweepState (p : Provider) (q : String) : List String × List (String × String) :=
  (variations q).foldl
    (fun st v => suffixes.foldl (fun st2 suf => sweepStep p st2 (v ++ suf)) st)
    ([], [])

/-- The fixed fallback table of well-known (symbol, company name)
pairs scanned by tier 3. -/
def common_stocks : List (String × String) :=
  [("AAPL", "Apple"), ("MSFT", "Microsoft"), ("GOOGL", "Google"),
   ("AMZN", "Amazon"), ("NVDA", "NVIDIA"), ("META", "Meta"),
   ("TSLA", "Tesla"), ("NFLX", "Netflix")]

/-- Tier-3 guard on the re-queried record: only a longName entry is
required, and the candidate keeps the table symbol. -/
def fallbackAppend2 (results : List (String × String)) (sym : String) :
    Option String → List (String × String)
  | some name => results ++ [(sym, name)]
  | none => results

/-- Continuation of the tier-3 re-query: a raising call is caught and
the entry contributes nothing. -/
def fallbackAppend (results : List (String × String)) (sym : String) :
    Except Unit Info → List (String × String)
  | Except.error _ => results
  | Except.ok info => fallbackAppend2 results sym info.longName

/-- Loop body of the tier-3 fallback: when the lower-cased query occurs
in the lower-cased company name, re-query the provider by the table
symbol. No seen-set is consulted here. -/
def fallbackStep (p : Provider) (q : String) (results : List (String × String))
    (e : String × String) : List (String × String) :=
  if strContains (pyLower e.2) (pyLower q) then
    fallbackAppend results e.1 (p.info e.1)
  else results

/-- The whole tier-3 fallback scan. -/
def fallbackResults (p : Provider) (q : String) : List (String × String) :=
  common_stocks.foldl (fallbackStep p q) []

/-- What one table entry contributes to the tier-3 scan, as an option. -/
def fallbackEmitAux (sym : String) : Except Unit Info → Option (String × String)
  | Except.error _ => none
  | Except.ok info => info.longName.map (fun name => (sym, name))

/-- What one table entry contributes to the tier-3 scan. -/
def fallbackEmit (p : Provider) (q : String) (e : String × String) :
    Option (String × String) :=
  if strContains (pyLower e.2) (pyLower q) then fallbackEmitAux e.1 (p.info e.1)
  else none

/-- All strings probed by the tier-2 sweep, in probe order. -/
def allProbes (q : String) : List String :=
  (variations q).flatMap (fun v => suffixes.map (fun suf => v ++ suf))

/-- Tiers 2 and 3 of search_stock with their provider-call trace:
the sweep over all variant and suffix combinations and, only when the
sweep accumulated nothing, the fallback scan over the matching table
entries. -/
def searchTail (p : Provider) (q : String) :
    List (String × String) × List String :=
  let sweep := sweepState p q
  if sweep.2.isEmpty then
    (fallbackResults p q,
     (q :: allProbes q) ++
       ((common_stocks.filter
           (fun e => strContains (pyLower e.2) (pyLower q))).map Prod.fst))
  else (sweep.2, q :: allProbes q)

/-- Tier-1 dispatch of search_stock: on a full record for the raw query,
return it as the sole candidate at once; otherwise run the later
tiers. -/
def directOr (q : String) (tail : List (String × String) × List String) :
    Option (String × String) → List (String × String) × List String
  | some c => ([c], [q])
  | none => tail

/-- search_stock together with its provider-call trace (the list of
strings passed to the provider, in call order), the instrumentation the
spec asks call counts to be checked on. -/
def search_stockTr (p : Provider) (q : String) :
    List (String × String) × List String :=
  directOr q (searchTail p q) (probeFull p q)

/-- search_stock: the candidate list alone. -/
def search_stock (p : Provider) (q : String) : List (String × String) :=
  (search_stockTr p q).1

/-! ## Quote Fetcher: get_stock_data -/

/-- Continuation of the single try of get_stock_data: a raise from
either provider call yields the (None, None) result, modelled as
none. -/
def fetchPair : Except Unit (List ℚ) → Except Unit Info → Option (List ℚ × Info)
  | Except.ok hist, Except.ok info => some (hist, info)
  | _, _ => none

/-- get_stock_data: minute bars for the intraday periods, daily bars
otherwise. -/
def get_stock_data (p : Provider) (symbol period : String) :
    Option (List ℚ × Info) :=
  let interval := if period = "1d" ∨ period = "5d" then "1m" else "1d"
  fetchPair (p.history symbol period interval) (p.info symbol)

/-! ## Provider transformers and concrete providers used in statements -/

/-- Turn a raising info call into a field-free record, which the code
treats identically. -/
def absorbResult : Except Unit Info → Except Unit Info
  | Except.error _ => Except.ok ⟨none, none⟩
  | Except.ok i => Except.ok i

/-- Replace every raising info call of a provider by a field-free
record, leaving successful calls alone. -/
def absorbInfoErrors (p : Provider) : Provider :=
  ⟨p.history, fun s => absorbResult (p.info s)⟩

/-- The provider whose every call raises. -/
def deadProvider : Provider :=
  ⟨fun _ _ _ => Except.error (), fun _ => Except.error ()⟩

/-- Provider answering every info call with a full record for AAPL
(used to exercise the tier-1 early return). -/
def pDirect : Provider :=
  ⟨fun _ _ _ => Except.error (),
   fun _ => Except.ok ⟨some "AAPL", some "Apple Inc."⟩⟩

/-- Provider knowing only the ticker AAPL, with a full record
(used to exercise the tier-3 fallback). -/
def pFB : Provider :=
  ⟨fun _ _ _ => Except.error (),
   fun s => if s = "AAPL" then Except.ok ⟨some "AAPL", some "Apple Inc."⟩
            else Except.error ()⟩

/-- Provider knowing only the ticker AAPL, whose record lacks the
symbol field (used to exercise the weaker tier-3 guard). -/
def pNoSym : Provider :=
  ⟨fun _ _ _ => Except.error (),
   fun s => if s = "AAPL" then Except.ok ⟨none, some "Apple Inc."⟩
            else Except.error ()⟩

/-- Provider with history only for the Dow Jones symbol (used to
exercise partial snapshot success). -/
def pPartial : Provider :=
  ⟨fun s _ _ => if s = "^DJI" then Except.ok [100, 110] else Except.error (),
   fun _ => Except.error ()⟩

/-- Provider with history only for the S&P 500 symbol (used for the
snapshot arithmetic example). -/
def pIdx : Provider :=
  ⟨fun s _ _ => if s = "^GSPC" then Except.ok [100, 110] else Except.error (),
   fun _ => Except.error ()⟩

/-- Provider giving AAPL a flat two-session history (zero change). -/
def pZero : Provider :=
  ⟨fun s _ _ => if s = "AAPL" then Except.ok [100, 100] else Except.error (),
   fun s => if s = "AAPL" then Except.ok ⟨some "AAPL", some "Apple Inc."⟩
            else Except.error ()⟩

/-- Provider realising the spec example for the movers ranker: four
watchlist symbols with percent changes +5, -3, +8 and -1. -/
def moversExample : Provider :=
  ⟨fun s _ _ =>
     if s = "AAPL" then Except.ok [100, 105]
     else if s = "MSFT" then Except.ok [100, 97]
     else if s = "GOOGL" then Except.ok [100, 108]
     else if s = "AMZN" then Except.ok [100, 99]
     else Except.error (),
   fun s =>
     if s = "AAPL" then Except.ok ⟨some "AAPL", some "Apple Inc."⟩
     else if s = "MSFT" then Except.ok ⟨some "MSFT", some "Microsoft Corporation"⟩
     else if s = "GOOGL" then Except.ok ⟨some "GOOGL", some "Alphabet Inc."⟩
     else if s = "AMZN" then Except.ok ⟨some "AMZN", some "Amazon.com, Inc."⟩
     else Except.error ()⟩

/-! ## General lemmas about folds and filterMap -/

/-- filterMap steps through a cons by appending the optional image. -/
lemma filterMap_cons_toList {α β : Type} (f : α → Option β) (a : α) (l : List α) :
    List.filterMap f (a :: l) = (f a).toList ++ List.filterMap f l := by
  cases h : f a <;> simp [h]

/-- A fold with a step that never moves leaves its state unchanged. -/
lemma foldl_fixed {α β : Type} {f : β → α → β} (h : ∀ st x, f st x = st) :
    ∀ (l : List α) (st : β), l.foldl f st = st := by
  intro l
  induction l with
  | nil => intro st; rfl
  | cons a l ih => intro st; rw [List.foldl_cons, h st a]; exact ih st

/-- A fold with a step preserving an invariant preserves it. -/
lemma foldl_inv {α β : Type} {P : β → Prop} {f : β → α → β}
    (h : ∀ st x, P st → P (f st x)) :
    ∀ (l : List α) (st : β), P st → P (l.foldl f st) := by
  intro l
  induction l with
  | nil => intro st hst; exact hst
  | cons a l ih => intro st hst; rw [List.foldl_cons]; exact ih (f st a) (h st a hst)

/-! ## The tier-3 fallback as a filterMap -/

/-- One fallback loop step appends exactly the emitted candidate. -/
lemma fallbackStep_eq (p : Provider) (q : String)
    (results : List (String × String)) (e : String × String) :
    fallbackStep p q results e = results ++ (fallbackEmit p q e).toList := by
  unfold fallbackStep fallbackEmit
  cases hc : strContains (pyLower e.2) (pyLower q)
  · simp
  · cases hi : p.info e.1 with
    | error u => simp [fallbackAppend, fallbackEmitAux]
    | ok info =>
      cases hn : info.longName <;>
        simp [fallbackAppend, fallbackAppend2, fallbackEmitAux, hn]

/-- The fallback loop is the filterMap of its per-entry emission. -/
lemma foldl_fallbackStep (p : Provider) (q : String) :
    ∀ (l : List (String × String)) (acc : List (String × String)),
      l.foldl (fallbackStep p q) acc = acc ++ l.filterMap (fallbackEmit p q) := by
  intro l
  induction l with
  | nil => intro acc; simp
  | cons e l ih =>
    intro acc
    rw [List.foldl_cons, fallbackStep_eq, ih, filterMap_cons_toList,
      List.append_assoc]

/-- Characterisation of one tier-3 emission. -/
lemma fallbackEmit_eq_some (p : Provider) (q : String) (e : String × String)
    (c : String × String) :
    fallbackEmit p q e = some c ↔
      strContains (pyLower e.2) (pyLower q) = true ∧
        (∃ i, p.info e.1 = Except.ok i ∧ i.longName = some c.2) ∧ c.1 = e.1 := by
  unfold fallbackEmit
  cases hc : strContains (pyLower e.2) (pyLower q)
  · simp
  · cases hi : p.info e.1 with
    | error u => simp [fallbackEmitAux, hi]
    | ok info =>
      cases hn : info.longName with
      | none => simp [fallbackEmitAux, hn, hi]
      | some name =>
        simp only [fallbackEmitAux, hn, Option.map_some, true_and]
        constructor
        · intro h
          cases c with
          | mk c1 c2 =>
            cases h
            exact ⟨⟨info, rfl, hn⟩, rfl⟩
        · rintro ⟨⟨i, hoki, hlong⟩, hfst⟩
          cases hoki
          rw [hn] at hlong
          cases hlong
          cases c with
          | mk c1 c2 => simp_all


/-- The table symbol of each tier-3 emission. -/
lemma fallbackEmit_fst (p : Provider) (q : String) (e : String × String)
    (c : String × String) (h : fallbackEmit p q e = some c) : c.1 = e.1 :=
  ((fallbackEmit_eq_some p q e c).mp h).2.2

/-- The symbols emitted by the tier-3 scan of a list form a sublist of
the symbols of that list. -/
lemma fallback_fst_sublist (p : Provider) (q : String) :
    ∀ l : List (String × String),
      ((l.filterMap (fallbackEmit p q)).map Prod.fst).Sublist (l.map Prod.fst) := by
  intro l
  induction l with
  | nil => simp
  | cons e l ih =>
    rw [filterMap_cons_toList]
    cases h : fallbackEmit p q e with
    | none => simpa using ih.cons e.1
    | some c =>
      have hc : c.1 = e.1 := fallbackEmit_fst p q e c h
      simpa [hc] using ih.cons₂ e.1

/-! ## The tier-2 sweep invariant -/

/-- Invariant of the sweep state: accumulated symbols are pairwise
distinct and all recorded in the seen-set. -/
def SweepOk (st : List String × List (String × String)) : Prop :=
  (st.2.map Prod.fst).Nodup ∧ ∀ s ∈ st.2.map Prod.fst, s ∈ st.1

/-- One sweep step preserves the invariant. -/
lemma sweepStep_ok (p : Provider) (s : String)
    (st : List String × List (String × String)) (h : SweepOk st) :
    SweepOk (sweepStep p st s) := by
  unfold sweepStep
  cases hp : probeFull p s with
  | none => exact h
  | some c =>
    unfold sweepInsert
    by_cases hmem : c.1 ∈ st.1
    · simpa [hmem] using h
    · obtain ⟨hnd, hsub⟩ := h
      refine ⟨?_, ?_⟩
      · simp only [if_neg hmem, List.map_append, List.map_cons, List.map_nil]
        refine List.Nodup.append hnd (List.nodup_singleton c.1) ?_
        intro x hx hx2
        rcases List.mem_singleton.mp hx2 with rfl
        exact hmem (hsub _ hx)
      · intro x hx
        simp only [if_neg hmem, List.map_append, List.map_cons, List.map_nil,
          List.mem_append, List.mem_singleton] at hx ⊢
        rcases hx with hx | rfl
        · exact Or.inl (hsub _ hx)
        · exact Or.inr rfl

/-- The whole sweep satisfies the invariant. -/
lemma sweepState_ok (p : Provider) (q : String) : SweepOk (sweepState p q) := by
  unfold sweepState
  refine foldl_inv (fun st v hst => ?_) (variations q) ([], []) ?_
  · exact foldl_inv (fun st2 suf h2 => sweepStep_ok p (v ++ suf) st2 h2) suffixes st hst
  · exact ⟨List.nodup_nil, by simp⟩

/-! ## Branch lemmas for search_stock -/

/-- A full tier-1 record returns immediately with the single candidate
and exactly one provider call. -/
lemma search_stockTr_direct (p : Provider) (q : String) (c : String × String)
    (h : probeFull p q = some c) : search_stockTr p q = ([c], [q]) := by
  unfold search_stockTr
  rw [h]
  rfl

/-- A failed tier-1 probe hands over to the later tiers. -/
lemma search_stockTr_tail (p : Provider) (q : String)
    (h : probeFull p q = none) : search_stockTr p q = searchTail p q := by
  unfold search_stockTr
  rw [h]
  rfl

/-- With an empty sweep, the tail is the fallback scan with its trace. -/
lemma searchTail_fallback (p : Provider) (q : String)
    (h2 : (sweepState p q).2 = []) :
    searchTail p q =
      (fallbackResults p q,
       (q :: allProbes q) ++
         ((common_stocks.filter
             (fun e => strContains (pyLower e.2) (pyLower q))).map Prod.fst)) := by
  simp [searchTail, h2]

/-- With a nonempty sweep, the tail is the sweep result and the
fallback never probes. -/
lemma searchTail_sweep (p : Provider) (q : String)
    (h2 : (sweepState p q).2 ≠ []) :
    searchTail p q = ((sweepState p q).2, q :: allProbes q) := by
  simp [searchTail, h2]

/-- The fallback scan is the filterMap of its emission over the table. -/
lemma fallbackResults_eq (p : Provider) (q : String) :
    fallbackResults p q = common_stocks.filterMap (fallbackEmit p q) := by
  unfold fallbackResults
  rw [foldl_fallbackStep]
  rfl

/-- Membership in the result of a fallback-reaching search. -/
lemma search_fallback_mem (p : Provider) (q : String)
    (h1 : probeFull p q = none) (h2 : (sweepState p q).2 = [])
    (c : String × String) :
    c ∈ search_stock p q ↔
      ∃ e ∈ common_stocks,
        strContains (pyLower e.2) (pyLower q) = true ∧
          (∃ i, p.info e.1 = Except.ok i ∧ i.longName = some c.2) ∧ c.1 = e.1 := by
  unfold search_stock
  rw [search_stockTr_tail p q h1, searchTail_fallback p q h2]
  show c ∈ fallbackResults p q ↔ _
  rw [fallbackResults_eq, List.mem_filterMap]
  constructor
  · rintro ⟨e, he, hemit⟩
    exact ⟨e, he, (fallbackEmit_eq_some p q e c).mp hemit⟩
  · rintro ⟨e, he, hprops⟩
    exact ⟨e, he, (fallbackEmit_eq_some p q e c).mpr hprops⟩

/-! ## Claims C1, C2, C7, C8 -/

/-- C1: whenever the direct tier-1 lookup yields a record with both a
resolved symbol and a display name, resolve answers exactly that single
candidate, and its provider-call trace is the raw query alone: no
tier-2 variation probe and no tier-3 fallback probe is performed. -/
theorem direct_hit_short_circuits (p : Provider) (q : String) (i : Info)
    (s n : String) (h : p.info q = Except.ok i)
    (hs : i.symbol = some s) (hn : i.longName = some n) :
    search_stockTr p q = ([(s, n)], [q]) := by
  have hp : probeFull p q = some (s, n) := by
    unfold probeFull
    rw [h]
    simp [probeOfResult, hs, hn, probeOfFields]
  exact search_stockTr_direct p q (s, n) hp

/-- Witness for C1 at a concrete provider and query. -/
theorem direct_hit_short_circuits_witness :
    pDirect.info "AAPL" = Except.ok ⟨some "AAPL", some "Apple Inc."⟩ ∧
    search_stockTr pDirect "AAPL" = ([("AAPL", "Apple Inc.")], ["AAPL"]) :=
  ⟨rfl, direct_hit_short_circuits pDirect "AAPL"
    ⟨some "AAPL", some "Apple Inc."⟩ "AAPL" "Apple Inc." rfl rfl rfl⟩

/-- C2: for every provider behaviour and every query, the candidate
list of resolve never contains two candidates with the same symbol. -/
theorem resolve_symbols_nodup (p : Provider) (q : String) :
    ((search_stock p q).map Prod.fst).Nodup := by
  unfold search_stock
  cases hp : probeFull p q with
  | some c =>
    rw [search_stockTr_direct p q c hp]
    simp
  | none =>
    rw [search_stockTr_tail p q hp]
    by_cases h2 : (sweepState p q).2 = []
    · rw [searchTail_fallback p q h2]
      show ((fallbackResults p q).map Prod.fst).Nodup
      rw [fallbackResults_eq]
      exact List.Nodup.sublist (fallback_fst_sublist p q common_stocks) (by decide)
    · rw [searchTail_sweep p q h2]
      exact (sweepState_ok p q).1

/-- Witness for C2 at a concrete provider and query. -/
theorem resolve_symbols_nodup_witness :
    ((search_stock pFB "apple").map Prod.fst).Nodup :=
  resolve_symbols_nodup pFB "apple"

/-- C7: under a failed direct lookup, if the variation sweep produced
zero candidates then the result consists exactly of the table entries
whose company name contains the lower-cased query and whose re-query
yields a record with a display name, each under the table symbol; and
if the sweep produced candidates, the fallback is not reached: the
result is the sweep result and the trace holds no fallback probe. -/
theorem fallback_only_and_exact (p : Provider) (q : String)
    (h1 : probeFull p q = none) :
    ((sweepState p q).2 = [] →
      ∀ c, c ∈ search_stock p q ↔
        ∃ e ∈ common_stocks,
          strContains (pyLower e.2) (pyLower q) = true ∧
            (∃ i, p.info e.1 = Except.ok i ∧ i.longName = some c.2) ∧
            c.1 = e.1) ∧
    ((sweepState p q).2 ≠ [] →
      search_stockTr p q = ((sweepState p q).2, q :: allProbes q)) := by
  constructor
  · intro h2 c
    exact search_fallback_mem p q h1 h2 c
  · intro h2
    rw [search_stockTr_tail p q h1, searchTail_sweep p q h2]

/-- Witness for C7: with a provider that only knows the ticker AAPL,
the query apple falls through to the fallback and finds Apple. -/
theorem fallback_only_and_exact_witness :
    probeFull pFB "apple" = none ∧
    ("AAPL", "Apple Inc.") ∈ search_stock pFB "apple" := by
  refine ⟨rfl, ?_⟩
  refine ((fallback_only_and_exact pFB "apple" rfl).1 rfl
    ("AAPL", "Apple Inc.")).mpr ?_
  exact ⟨("AAPL", "Apple"), by decide, by decide,
    ⟨⟨some "AAPL", some "Apple Inc."⟩, rfl, rfl⟩, rfl⟩

/-- C8: in the tier-3 fallback, any matching table entry whose re-query
yields a record with a display name is emitted under the table symbol,
with no requirement on the symbol field of the record (weaker than the
tier-1 and tier-2 guard); and every emitted candidate carries a table
symbol. -/
theorem fallback_uses_table_symbol (p : Provider) (q : String)
    (h1 : probeFull p q = none) (h2 : (sweepState p q).2 = []) :
    (∀ e ∈ common_stocks, strContains (pyLower e.2) (pyLower q) = true →
       ∀ i, p.info e.1 = Except.ok i → ∀ name, i.longName = some name →
         (e.1, name) ∈ search_stock p q) ∧
    (∀ c ∈ search_stock p q, ∃ e ∈ common_stocks, c.1 = e.1) := by
  constructor
  · intro e he hc i hi name hname
    exact (search_fallback_mem p q h1 h2 (e.1, name)).mpr
      ⟨e, he, hc, ⟨i, hi, hname⟩, rfl⟩
  · intro c hc
    obtain ⟨e, he, _, _, hfst⟩ := (search_fallback_mem p q h1 h2 c).mp hc
    exact ⟨e, he, hfst⟩

/-- Witness for C8: a record with a display name but no symbol field
still yields the candidate, under the hardcoded table ticker. -/
theorem fallback_uses_table_symbol_witness :
    pNoSym.info "AAPL" = Except.ok ⟨none, some "Apple Inc."⟩ ∧
    ("AAPL", "Apple Inc.") ∈ search_stock pNoSym "apple" :=
  ⟨rfl, (fallback_uses_table_symbol pNoSym "apple" rfl rfl).1 ("AAPL", "Apple")
    (by decide) (by decide) ⟨none, some "Apple Inc."⟩ rfl "Apple Inc." rfl⟩

/-! ## The movers partition as filters -/

/-- The classification loop is the pair of sign filters over the
qualifying rows. -/
lemma foldl_classify (p : Provider) :
    ∀ (l : List String) (g a : List (ℚ × MoverData)),
      l.foldl (classify p) (g, a) =
        (g ++ (l.filterMap (moverEntry p)).filter (fun e => decide (0 < e.1)),
         a ++ (l.filterMap (moverEntry p)).filter (fun e => !decide (0 < e.1))) := by
  intro l
  induction l with
  | nil => intro g a; simp
  | cons s l ih =>
    intro g a
    rw [List.foldl_cons]
    cases h : moverEntry p s with
    | none =>
      have hstep : classify p (g, a) s = (g, a) := by
        simp [classify, h, classifyEntry]
      rw [hstep, ih, filterMap_cons_toList, h]
      simp
    | some e =>
      by_cases hp : 0 < e.1
      · have hstep : classify p (g, a) s = (g ++ [e], a) := by
          simp [classify, h, classifyEntry, hp]
        rw [hstep, ih, filterMap_cons_toList, h]
        simp [hp]
      · have hstep : classify p (g, a) s = (g, a ++ [e]) := by
          simp [classify, h, classifyEntry, hp]
        rw [hstep, ih, filterMap_cons_toList, h]
        simp [hp]

/-- The movers partition in closed form. -/
lemma moverPartition_eq (p : Provider) :
    moverPartition p =
      ((stocks.filterMap (moverEntry p)).filter (fun e => decide (0 < e.1)),
       (stocks.filterMap (moverEntry p)).filter (fun e => !decide (0 < e.1))) := by
  unfold moverPartition
  rw [foldl_classify]
  simp

/-- Closed form of a successful row computation. -/
lemma moverFromHist_spec (symbol name : String) (hist : List ℚ)
    (h2 : 2 ≤ hist.length) (hz : hist.dropLast.getLastD 0 ≠ 0) :
    moverFromHist symbol name hist =
      some ((hist.getLastD 0 - hist.dropLast.getLastD 0) /
              hist.dropLast.getLastD 0 * 100,
            ⟨symbol, name, hist.getLastD 0,
             hist.getLastD 0 - hist.dropLast.getLastD 0,
             (hist.getLastD 0 - hist.dropLast.getLastD 0) /
               hist.dropLast.getLastD 0 * 100,
             if 0 < (hist.getLastD 0 - hist.dropLast.getLastD 0) /
                 hist.dropLast.getLastD 0 * 100
             then Color.green else Color.red⟩) := by
  simp [moverFromHist, h2, hz, -List.getLastD_eq_getLast?]

/-- A short history yields no row. -/
lemma moverFromHist_short (symbol name : String) (hist : List ℚ)
    (h : hist.length < 2) : moverFromHist symbol name hist = none := by
  simp [moverFromHist, show ¬ 2 ≤ hist.length from by omega]

/-- A zero previous close yields no row (ZeroDivisionError). -/
lemma moverFromHist_zero (symbol name : String) (hist : List ℚ)
    (hz : hist.dropLast.getLastD 0 = 0) :
    moverFromHist symbol name hist = none := by
  by_cases h2 : 2 ≤ hist.length
  · simp [moverFromHist, h2, hz, -List.getLastD_eq_getLast?]
  · simp [moverFromHist, h2]

/-- Every emitted row carries its sort key as its percent change, and
its colour is determined by the sign of that key. -/
lemma moverEntry_key (p : Provider) (sym : String) (e : ℚ × MoverData)
    (h : moverEntry p sym = some e) :
    e.1 = e.2.changePct ∧
      e.2.color = (if 0 < e.2.changePct then Color.green else Color.red) ∧
      e.2.symbol = sym := by
  obtain ⟨k, d⟩ := e
  unfold moverEntry at h
  cases hh : p.history sym "2d" "1d" with
  | error u => rw [hh] at h; simp [moverOfResults] at h
  | ok hist =>
    cases hi : p.info sym with
    | error u => rw [hh, hi] at h; simp [moverOfResults] at h
    | ok info =>
      rw [hh, hi] at h
      simp only [moverOfResults] at h
      cases hn : info.longName with
      | none => rw [hn] at h; simp [moverOfName] at h
      | some name =>
        rw [hn] at h
        simp only [moverOfName] at h
        by_cases hlen : 2 ≤ hist.length
        · by_cases hz : hist.dropLast.getLastD 0 = 0
          · rw [moverFromHist_zero sym name hist hz] at h
            exact absurd h (by simp)
          · rw [moverFromHist_spec sym name hist hlen hz] at h
            rw [Option.some_inj, Prod.mk.injEq] at h
            obtain ⟨hk, hd⟩ := h
            subst hk
            subst hd
            exact ⟨rfl, rfl, rfl⟩
        · rw [moverFromHist_short sym name hist (by omega)] at h
          exact absurd h (by simp)

/-- Unfolding of get_top_movers. -/
lemma get_top_movers_def (p : Provider) :
    get_top_movers p =
      (((List.insertionSort gainerOrder (moverPartition p).1).take 10).map Prod.snd,
       ((List.insertionSort loserOrder (moverPartition p).2).take 10).map Prod.snd) :=
  rfl

/-- Every row accumulated on the gainers side is a qualifying row with
strictly positive key. -/
lemma gainers_mem (p : Provider) (x : ℚ × MoverData)
    (hx : x ∈ (moverPartition p).1) :
    x ∈ stocks.filterMap (moverEntry p) ∧ 0 < x.1 := by
  rw [moverPartition_eq] at hx
  have h := List.mem_filter.mp hx
  exact ⟨h.1, by simpa using h.2⟩

/-- Every row accumulated on the losers side is a qualifying row with
non-positive key. -/
lemma losers_mem (p : Provider) (x : ℚ × MoverData)
    (hx : x ∈ (moverPartition p).2) :
    x ∈ stocks.filterMap (moverEntry p) ∧ x.1 ≤ 0 := by
  rw [moverPartition_eq] at hx
  have h := List.mem_filter.mp hx
  refine ⟨h.1, ?_⟩
  have h2 := h.2
  simp only [Bool.not_eq_eq_eq_not, Bool.not_true, decide_eq_false_iff_not] at h2
  exact le_of_not_lt h2

/-- Every qualifying row carries its key as its percent change. -/
lemma qualifying_key (p : Provider) (x : ℚ × MoverData)
    (hx : x ∈ stocks.filterMap (moverEntry p)) : x.1 = x.2.changePct := by
  obtain ⟨sym, _, hent⟩ := List.mem_filterMap.mp hx
  exact (moverEntry_key p sym x hent).1

/-- C4: for every provider behaviour, the movers ranker caps both
tables at ten rows, sorts gainers by descending percent change and
losers ascending, partitions the qualifying rows by strict sign of the
percent change, and on the spec example watchlist (+5, -3, +8, -1)
returns gainers (+8, +5) and losers (-3, -1). -/
theorem movers_rank_and_truncate (p : Provider) :
    (get_top_movers p).1.length ≤ 10 ∧
    (get_top_movers p).2.length ≤ 10 ∧
    (get_top_movers p).1.Pairwise (fun a b => b.changePct ≤ a.changePct) ∧
    (get_top_movers p).2.Pairwise (fun a b => a.changePct ≤ b.changePct) ∧
    (∀ d ∈ (get_top_movers p).1, 0 < d.changePct) ∧
    (∀ d ∈ (get_top_movers p).2, d.changePct ≤ 0) ∧
    moverPartition p =
      ((stocks.filterMap (moverEntry p)).filter (fun e => decide (0 < e.1)),
       (stocks.filterMap (moverEntry p)).filter (fun e => !decide (0 < e.1))) ∧
    get_top_movers moversExample =
      ([⟨"GOOGL", "Alphabet Inc.", 108, 8, 8, Color.green⟩,
        ⟨"AAPL", "Apple Inc.", 105, 5, 5, Color.green⟩],
       [⟨"MSFT", "Microsoft Corporation", 97, -3, -3, Color.red⟩,
        ⟨"AMZN", "Amazon.com, Inc.", 99, -1, -1, Color.red⟩]) := by
  have hG : ∀ x ∈ (List.insertionSort gainerOrder (moverPartition p).1).take 10,
      x ∈ (moverPartition p).1 := fun x hx =>
    (List.perm_insertionSort gainerOrder (moverPartition p).1).subset
      ((List.take_sublist 10 _).subset hx)
  have hL : ∀ x ∈ (List.insertionSort loserOrder (moverPartition p).2).take 10,
      x ∈ (moverPartition p).2 := fun x hx =>
    (List.perm_insertionSort loserOrder (moverPartition p).2).subset
      ((List.take_sublist 10 _).subset hx)
  refine ⟨?_, ?_, ?_, ?_, ?_, ?_, moverPartition_eq p, ?_⟩
  · rw [get_top_movers_def]
    rw [List.length_map]
    exact List.length_take_le 10 _
  · rw [get_top_movers_def]
    rw [List.length_map]
    exact List.length_take_le 10 _
  · rw [get_top_movers_def]
    show List.Pairwise _ (((List.insertionSort gainerOrder (moverPartition p).1).take 10).map Prod.snd)
    rw [List.pairwise_map]
    refine List.Pairwise.imp_of_mem ?_
      (List.Pairwise.sublist (List.take_sublist 10 _)
        (List.sorted_insertionSort gainerOrder (moverPartition p).1))
    intro a b ha hb hR
    have ka := qualifying_key p a (gainers_mem p a (hG a ha)).1
    have kb := qualifying_key p b (gainers_mem p b (hG b hb)).1
    rw [← ka, ← kb]
    exact hR
  · rw [get_top_movers_def]
    show List.Pairwise _ (((List.insertionSort loserOrder (moverPartition p).2).take 10).map Prod.snd)
    rw [List.pairwise_map]
    refine List.Pairwise.imp_of_mem ?_
      (List.Pairwise.sublist (List.take_sublist 10 _)
        (List.sorted_insertionSort loserOrder (moverPartition p).2))
    intro a b ha hb hR
    have ka := qualifying_key p a (losers_mem p a (hL a ha)).1
    have kb := qualifying_key p b (losers_mem p b (hL b hb)).1
    rw [← ka, ← kb]
    exact hR
  · rw [get_top_movers_def]
    intro d hd
    obtain ⟨x, hx, rfl⟩ := List.mem_map.mp hd
    have h := gainers_mem p x (hG x hx)
    rw [← qualifying_key p x h.1]
    exact h.2
  · rw [get_top_movers_def]
    intro d hd
    obtain ⟨x, hx, rfl⟩ := List.mem_map.mp hd
    have h := losers_mem p x (hL x hx)
    rw [← qualifying_key p x h.1]
    exact h.2
  · norm_num +decide [get_top_movers, moverPartition, stocks, classify, moverEntry,
      moversExample, moverOfResults, moverOfName, moverFromHist, classifyEntry,
      List.getLastD_cons, List.getLastD_nil, List.dropLast,
      List.insertionSort, List.orderedInsert, gainerOrder, loserOrder]

/-- Witness for C4: the spec example conjunct at its concrete
provider. -/
theorem movers_rank_and_truncate_witness :
    get_top_movers moversExample =
      ([⟨"GOOGL", "Alphabet Inc.", 108, 8, 8, Color.green⟩,
        ⟨"AAPL", "Apple Inc.", 105, 5, 5, Color.green⟩],
       [⟨"MSFT", "Microsoft Corporation", 97, -3, -3, Color.red⟩,
        ⟨"AMZN", "Amazon.com, Inc.", 99, -1, -1, Color.red⟩]) :=
  (movers_rank_and_truncate moversExample).2.2.2.2.2.2.2

/-- The flat-history AAPL row used in the C9 witness. -/
def mZero : MoverData := ⟨"AAPL", "Apple Inc.", 100, 0, 0, Color.red⟩

/-- C9: a watchlist row whose percent change is exactly zero is kept,
lands in the losers accumulation and not in the gainers one, and is
tagged red, since only a strictly positive percent change gains. -/
theorem zero_change_is_loser (p : Provider) (sym : String) (e : ℚ × MoverData)
    (hmem : sym ∈ stocks) (he : moverEntry p sym = some e) (hz : e.1 = 0) :
    e ∈ (moverPartition p).2 ∧ e ∉ (moverPartition p).1 ∧
      e.2.changePct = 0 ∧ e.2.color = Color.red := by
  have hfm : e ∈ stocks.filterMap (moverEntry p) :=
    List.mem_filterMap.mpr ⟨sym, hmem, he⟩
  have hkey := moverEntry_key p sym e he
  have hpct : e.2.changePct = 0 := by rw [← hkey.1]; exact hz
  refine ⟨?_, ?_, hpct, ?_⟩
  · rw [moverPartition_eq]
    exact List.mem_filter.mpr ⟨hfm, by simp [hz]⟩
  · rw [moverPartition_eq]
    intro hcon
    have h2 := (List.mem_filter.mp hcon).2
    simp [hz] at h2
  · rw [hkey.2.1, hpct]
    simp

/-- Witness for C9: a flat two-session history gives a zero-change row
classified as a red loser. -/
theorem zero_change_is_loser_witness :
    (0, mZero) ∈ (moverPartition pZero).2 ∧
    (0, mZero) ∉ (moverPartition pZero).1 ∧
    (0, mZero).2.changePct = 0 ∧ (0, mZero).2.color = Color.red := by
  have he : moverEntry pZero "AAPL" = some (0, mZero) := by
    simp +decide [moverEntry, pZero, moverOfResults, moverOfName, moverFromHist,
      mZero, List.getLastD_cons, List.getLastD_nil, List.dropLast]
  exact zero_change_is_loser pZero "AAPL" (0, mZero) (by decide) he rfl

/-- Closed form of a successful index row computation. -/
lemma entryFromHist_spec (name : String) (hist : List ℚ)
    (h2 : 2 ≤ hist.length) (hz : hist.dropLast.getLastD 0 ≠ 0) :
    entryFromHist name hist =
      some ⟨name, hist.getLastD 0,
            hist.getLastD 0 - hist.dropLast.getLastD 0,
            (hist.getLastD 0 - hist.dropLast.getLastD 0) /
              hist.dropLast.getLastD 0 * 100,
            if 0 < (hist.getLastD 0 - hist.dropLast.getLastD 0) /
                hist.dropLast.getLastD 0 * 100
            then Color.green else Color.red⟩ := by
  simp [entryFromHist, h2, hz, -List.getLastD_eq_getLast?]

/-- A short history yields no index row. -/
lemma entryFromHist_short (name : String) (hist : List ℚ)
    (h : hist.length < 2) : entryFromHist name hist = none := by
  simp [entryFromHist, show ¬ 2 ≤ hist.length from by omega]

/-- A zero previous close yields no index row (ZeroDivisionError). -/
lemma entryFromHist_zero (name : String) (hist : List ℚ)
    (hz : hist.dropLast.getLastD 0 = 0) :
    entryFromHist name hist = none := by
  by_cases h2 : 2 ≤ hist.length
  · simp [entryFromHist, h2, hz, -List.getLastD_eq_getLast?]
  · simp [entryFromHist, h2]

/-- Every emitted index row carries the configured label and a colour
determined by the sign of its percent change. -/
lemma entryFromHist_key (name : String) (hist : List ℚ) (e : IndexQuote)
    (h : entryFromHist name hist = some e) :
    e.index = name ∧
      e.color = (if 0 < e.changePct then Color.green else Color.red) := by
  by_cases hlen : 2 ≤ hist.length
  · by_cases hz : hist.dropLast.getLastD 0 = 0
    · rw [entryFromHist_zero name hist hz] at h
      exact absurd h (by simp)
    · rw [entryFromHist_spec name hist hlen hz] at h
      rw [Option.some_inj] at h
      subst h
      exact ⟨rfl, rfl⟩
  · rw [entryFromHist_short name hist (by omega)] at h
    exact absurd h (by simp)

/-- C5: a fetched two-session history with previous close pv and latest
close c yields the row with change c - pv, percent change
(c - pv) / pv * 100 and a green tag exactly for a strictly positive
percent change; closes 100 and 110 give change 10, percent change 10
and a green tag. -/
theorem index_change_formula (p : Provider) (sym name : String) (hist : List ℚ)
    (c pv : ℚ) (hh : p.history sym "2d" "1d" = Except.ok hist)
    (hlen : 2 ≤ hist.length) (hc : hist.getLastD 0 = c)
    (hp : hist.dropLast.getLastD 0 = pv) (hpz : pv ≠ 0) :
    indexEntry p sym name =
      some ⟨name, c, c - pv, (c - pv) / pv * 100,
            if 0 < (c - pv) / pv * 100 then Color.green else Color.red⟩ ∧
    (∀ e : IndexQuote, indexEntry p sym name = some e →
       (e.color = Color.green ↔ 0 < e.changePct)) ∧
    indexEntry pIdx "^GSPC" "S&P 500" =
      some ⟨"S&P 500", 110, 10, 10, Color.green⟩ := by
  refine ⟨?_, ?_, ?_⟩
  · unfold indexEntry
    rw [hh]
    simp only [indexOfResult]
    rw [entryFromHist_spec name hist hlen (by rw [hp]; exact hpz), hc, hp]
  · intro e he
    unfold indexEntry at he
    rw [hh] at he
    simp only [indexOfResult] at he
    have hk := entryFromHist_key name hist e he
    rw [hk.2]
    by_cases hpos : 0 < e.changePct
    · simp [hpos]
    · simp [hpos]
  · norm_num +decide [indexEntry, pIdx, indexOfResult, entryFromHist,
      List.getLast?_singleton, List.getLast?_cons_cons, List.dropLast]

/-- Witness for C5 at the concrete two-session history 100, 110. -/
theorem index_change_formula_witness :
    pIdx.history "^GSPC" "2d" "1d" = Except.ok [100, 110] ∧
    indexEntry pIdx "^GSPC" "S&P 500" =
      some ⟨"S&P 500", (110 : ℚ), 110 - 100, ((110 : ℚ) - 100) / 100 * 100,
            if 0 < ((110 : ℚ) - 100) / 100 * 100
            then Color.green else Color.red⟩ :=
  ⟨rfl, (index_change_formula pIdx "^GSPC" "S&P 500" [100, 110] 110 100
    rfl (by decide) rfl rfl (by decide)).1⟩

/-- C6: every derived index or mover row depends only on the last two
sessions of its history; a history with fewer than two sessions, or a
raising fetch, contributes no row; and the snapshot over one failing
and one succeeding index is a one-element list. -/
theorem two_session_invariant :
    (∀ (name : String) (h1 h2 : List ℚ), 2 ≤ h1.length → 2 ≤ h2.length →
       h1.getLastD 0 = h2.getLastD 0 →
       h1.dropLast.getLastD 0 = h2.dropLast.getLastD 0 →
       entryFromHist name h1 = entryFromHist name h2) ∧
    (∀ (sym name : String) (h1 h2 : List ℚ), 2 ≤ h1.length → 2 ≤ h2.length →
       h1.getLastD 0 = h2.getLastD 0 →
       h1.dropLast.getLastD 0 = h2.dropLast.getLastD 0 →
       moverFromHist sym name h1 = moverFromHist sym name h2) ∧
    (∀ (name : String) (h : List ℚ), h.length < 2 →
       entryFromHist name h = none) ∧
    (∀ (sym name : String) (h : List ℚ), h.length < 2 →
       moverFromHist sym name h = none) ∧
    (∀ (p : Provider) (sym name : String),
       p.history sym "2d" "1d" = Except.error () →
       indexEntry p sym name = none ∧ moverEntry p sym = none) ∧
    get_world_indices pPartial = [⟨"Dow Jones", 110, 10, 10, Color.green⟩] := by
  refine ⟨?_, ?_, ?_, ?_, ?_, ?_⟩
  · intro name h1 h2 hl1 hl2 hc hp
    by_cases hz : h1.dropLast.getLastD 0 = 0
    · rw [entryFromHist_zero name h1 hz,
        entryFromHist_zero name h2 (by rw [← hp]; exact hz)]
    · rw [entryFromHist_spec name h1 hl1 hz,
        entryFromHist_spec name h2 hl2 (by rw [← hp]; exact hz), hc, hp]
  · intro sym name h1 h2 hl1 hl2 hc hp
    by_cases hz : h1.dropLast.getLastD 0 = 0
    · rw [moverFromHist_zero sym name h1 hz,
        moverFromHist_zero sym name h2 (by rw [← hp]; exact hz)]
    · rw [moverFromHist_spec sym name h1 hl1 hz,
        moverFromHist_spec sym name h2 hl2 (by rw [← hp]; exact hz), hc, hp]
  · intro name h hlen
    exact entryFromHist_short name h hlen
  · intro sym name h hlen
    exact moverFromHist_short sym name h hlen
  · intro p sym name herr
    constructor
    · unfold indexEntry
      rw [herr]
      rfl
    · unfold moverEntry
      rw [herr]
      cases p.info sym <;> rfl
  · norm_num +decide [get_world_indices, indices, indexEntry, pPartial,
      indexOfResult, entryFromHist, filterMap_cons_toList,
      List.getLast?_singleton, List.getLast?_cons_cons, List.dropLast]

/-- Witness for C6: two histories sharing their final two closes yield
the same index row. -/
theorem two_session_invariant_witness :
    entryFromHist "S&P 500" [100, 110] =
      entryFromHist "S&P 500" [90, 100, 110] :=
  two_session_invariant.1 "S&P 500" [100, 110] [90, 100, 110]
    (by decide) (by decide) rfl rfl

/-- The label of every emitted index row is the configured name. -/
lemma indexEntry_index (p : Provider) (sym name : String) (e : IndexQuote)
    (h : indexEntry p sym name = some e) : e.index = name := by
  unfold indexEntry at h
  cases hh : p.history sym "2d" "1d" with
  | error u => rw [hh] at h; exact absurd h (by simp [indexOfResult])
  | ok hist =>
    rw [hh] at h
    simp only [indexOfResult] at h
    exact (entryFromHist_key name hist e h).1

/-- The emitted labels are the labels of the successful entries, in
table order. -/
lemma filterMap_names (p : Provider) :
    ∀ l : List (String × String),
      ((l.filterMap (fun e => indexEntry p e.1 e.2)).map IndexQuote.index) =
        (l.filter (fun e => (indexEntry p e.1 e.2).isSome)).map Prod.snd := by
  intro l
  induction l with
  | nil => simp
  | cons e l ih =>
    rw [filterMap_cons_toList]
    cases h : indexEntry p e.1 e.2 with
    | none => simp [h, ih]
    | some a => simp [h, ih, indexEntry_index p e.1 e.2 a h]

/-- C10: the snapshot preserves the configured order of the eight world
indices: its labels are exactly the labels of the successfully fetched
entries of the configured table, hence a sublist of the configured
label sequence. -/
theorem snapshot_preserves_order (p : Provider) :
    (get_world_indices p).map IndexQuote.index =
      (indices.filter (fun e => (indexEntry p e.1 e.2).isSome)).map Prod.snd ∧
    ((get_world_indices p).map IndexQuote.index).Sublist
      (indices.map Prod.snd) ∧
    indices.map Prod.snd =
      ["S&P 500", "Dow Jones", "NASDAQ", "FTSE 100", "Nikkei 225",
       "Hang Seng", "DAX", "CAC 40"] := by
  have h := filterMap_names p indices
  refine ⟨h, ?_, rfl⟩
  show ((indices.filterMap (fun e => indexEntry p e.1 e.2)).map
    IndexQuote.index).Sublist (indices.map Prod.snd)
  rw [h]
  exact List.Sublist.map Prod.snd (List.filter_sublist indices)

/-- Witness for C10: at a concrete provider the snapshot labels stay a
subsequence of the configured labels. -/
theorem snapshot_preserves_order_witness :
    ((get_world_indices pPartial).map IndexQuote.index).Sublist
      (indices.map Prod.snd) :=
  (snapshot_preserves_order pPartial).2.1

/-- An absorbed info result probes like the original. -/
lemma probeOfResult_absorb (r : Except Unit Info) :
    probeOfResult (absorbResult r) = probeOfResult r := by
  cases r <;> rfl

/-- The tier-1 probe is blind to absorbed errors. -/
lemma probeFull_absorb (p : Provider) (s : String) :
    probeFull (absorbInfoErrors p) s = probeFull p s :=
  probeOfResult_absorb (p.info s)

/-- The sweep step is blind to absorbed errors. -/
lemma sweepStep_absorb (p : Provider) :
    sweepStep (absorbInfoErrors p) = sweepStep p := by
  funext st s
  unfold sweepStep
  rw [probeFull_absorb]

/-- The whole sweep is blind to absorbed errors. -/
lemma sweepState_absorb (p : Provider) (q : String) :
    sweepState (absorbInfoErrors p) q = sweepState p q := by
  unfold sweepState
  simp only [sweepStep_absorb]

/-- The tier-3 append is blind to absorbed errors. -/
lemma fallbackAppend_absorb (res : List (String × String)) (sym : String)
    (r : Except Unit Info) :
    fallbackAppend res sym (absorbResult r) = fallbackAppend res sym r := by
  cases r <;> rfl

/-- The tier-3 loop body is blind to absorbed errors. -/
lemma fallbackStep_absorb (p : Provider) (q : String) :
    fallbackStep (absorbInfoErrors p) q = fallbackStep p q := by
  funext res e
  unfold fallbackStep
  rw [show (absorbInfoErrors p).info e.1 = absorbResult (p.info e.1) from rfl,
    fallbackAppend_absorb]

/-- The tier-3 scan is blind to absorbed errors. -/
lemma fallbackResults_absorb (p : Provider) (q : String) :
    fallbackResults (absorbInfoErrors p) q = fallbackResults p q := by
  unfold fallbackResults
  rw [fallbackStep_absorb]

/-- The later tiers are blind to absorbed errors. -/
lemma searchTail_absorb (p : Provider) (q : String) :
    searchTail (absorbInfoErrors p) q = searchTail p q := by
  unfold searchTail
  rw [sweepState_absorb, fallbackResults_absorb]

/-- C3: resolve treats a raising provider call exactly like a call
returning an empty record, so per-call failures only remove
contributions and never escape; against the provider whose every call
raises, resolve returns the empty candidate list and fetch returns the
absent pair. -/
theorem resolve_fetch_never_raise (p : Provider) (q symbol period : String) :
    search_stock (absorbInfoErrors p) q = search_stock p q ∧
    search_stock deadProvider q = [] ∧
    get_stock_data deadProvider symbol period = none := by
  refine ⟨?_, ?_, rfl⟩
  · unfold search_stock search_stockTr
    rw [probeFull_absorb, searchTail_absorb]
  · unfold search_stock search_stockTr
    rw [show probeFull deadProvider q = none from rfl]
    show (searchTail deadProvider q).1 = []
    unfold searchTail
    have hsweep : sweepState deadProvider q = ([], []) := by
      unfold sweepState
      exact foldl_fixed
        (fun st v => foldl_fixed (fun st2 suf => rfl) suffixes st)
        (variations q) ([], [])
    rw [hsweep]
    show fallbackResults deadProvider q = []
    rw [fallbackResults_eq]
    refine List.filterMap_eq_nil_iff.mpr fun e he => ?_
    unfold fallbackEmit
    cases hc : strContains (pyLower e.2) (pyLower q)
    · simp [hc]
    · simp only [hc, if_true]
      rw [show deadProvider.info e.1 = Except.error () from rfl]
      rfl

/-- Witness for C3: the all-raising provider yields the degenerate
results without any exception in the model. -/
theorem resolve_fetch_never_raise_witness :
    search_stock deadProvider "apple" = [] ∧
    get_stock_data deadProvider "AAPL" "1y" = none :=
  ⟨(resolve_fetch_never_raise deadProvider "apple" "AAPL" "1y").2.1,
   (resolve_fetch_never_raise deadProvider "apple" "AAPL" "1y").2.2⟩

end StockPulse
